import Mathlib

/-!
Verification development for the polling/aggregation core of the
Hyperliquid big-trader monitor (`src/app.py`).

The Python program is shallowly embedded: Python values occurring in API
payloads become `JValue`, Python floats become `PyFloat` (NaN and the two
infinities are explicit constructors; a finite value is an exact scaled
decimal `m * 10 ^ e`), fallible Python code (code that can raise) returns
`Except String _`, and the two per-address aggregation loops become
structural recursions over the watch-list.  `pandas.DataFrame.sort_values`
is modelled by `List.insertionSort` with the comparator the call uses;
only sortedness and permutation of the result are relied upon, which hold
for any correct sort.

The program compares floats only via `== 0` and the NaN self-equality
test, and multiplies and divides them; all of these are exact on the
scaled-decimal representation, so no floating-point rounding concern
enters any claim.  Two `PyFloat`s are compared with `=` only when they
were produced by the same computation, so the non-uniqueness of the
scaled-decimal representation is harmless.
-/

/-- Model of a Python float as used by `app.py`: NaN, signed infinity
(`inf true` is `+inf`), or an exact finite value `m * 10 ^ e`. -/
inductive PyFloat where
  | nan : PyFloat
  | inf : Bool → PyFloat
  | fin : ℤ → ℤ → PyFloat
deriving DecidableEq

/-- Python `x == x`: true for every float except NaN. -/
def PyFloat.selfEq : PyFloat → Bool
  | .nan => false
  | _ => true

/-- NaN test (Python `x != x`), as a Bool. -/
def PyFloat.isNan : PyFloat → Bool
  | .nan => true
  | _ => false

/-- Python `x == 0` on a float: NaN and infinities compare unequal to 0;
a finite value `m * 10 ^ e` compares equal exactly when `m = 0` (this
also covers `-0.0 == 0`, since the model has a single zero). -/
def PyFloat.eqZero : PyFloat → Bool
  | .fin m _ => m = 0
  | _ => false

/-- Python float multiplication on the model: NaN is absorbing, an
infinity times zero is NaN, otherwise infinities keep the product sign,
and finite values multiply exactly. -/
def PyFloat.mul : PyFloat → PyFloat → PyFloat
  | .nan, _ => .nan
  | _, .nan => .nan
  | .inf s, .inf t => .inf (s == t)
  | .inf s, .fin m _ => if m = 0 then .nan else .inf (s == decide (0 < m))
  | .fin m _, .inf s => if m = 0 then .nan else .inf (s == decide (0 < m))
  | .fin m e, .fin m' e' => .fin (m * m') (e + e')

/-- Python `x / 1000` on a float (used on the millisecond timestamp). -/
def PyFloat.div1000 : PyFloat → PyFloat
  | .nan => .nan
  | .inf s => .inf s
  | .fin m e => .fin m (e - 3)

/-- Model of the Python values that can sit in a JSON-decoded API payload
field: `null` (also standing for Python `None`), booleans, integers,
floats and strings; `listv n` is a list value abstracted to its length
(the program never inspects a list-valued field beyond truthiness and a
failing `float()` conversion). -/
inductive JValue where
  | null : JValue
  | bool : Bool → JValue
  | int : ℤ → JValue
  | float : PyFloat → JValue
  | str : String → JValue
  | listv : ℕ → JValue
deriving DecidableEq

/-- Python truthiness of a `JValue` (`None`, `False`, `0`, `0.0`, `""`
and `[]` are falsy; NaN and infinities are truthy). -/
def JValue.truthy : JValue → Bool
  | .null => false
  | .bool b => b
  | .int n => n ≠ 0
  | .float f => !f.eqZero
  | .str s => s ≠ ""
  | .listv n => n ≠ 0

/-- Characters Python `str.strip()` and `float(str)` treat as
whitespace. -/
def isSpaceChar (c : Char) : Bool :=
  c = ' ' ∨ c = '\t' ∨ c = '\n' ∨ c = '\r' ∨ c = '\x0b' ∨ c = '\x0c'

/-- Strip leading and trailing whitespace from a character list. -/
def trimChars (cs : List Char) : List Char :=
  ((cs.dropWhile isSpaceChar).reverse.dropWhile isSpaceChar).reverse

/-- Python `s.strip()`. -/
def pyStrip (s : String) : String :=
  String.mk (trimChars s.data)

/-- Value of a list of decimal digit characters, or `none` when the list
is empty or holds a non-digit. -/
def digitsVal : List Char → Option ℕ
  | [] => none
  | cs =>
    if cs.all Char.isDigit then
      some (cs.foldl (fun a c => a * 10 + (c.toNat - 48)) 0)
    else none

/-- Split a character list at the first character satisfying `p`,
returning the part before it and, when found, the part after it. -/
def splitFirst (p : Char → Bool) : List Char → List Char × Option (List Char)
  | [] => ([], none)
  | c :: rest =>
    if p c then ([], some rest)
    else
      let (a, b) := splitFirst p rest
      (c :: a, b)

/-- Strip one optional leading sign, returning whether the value is
negative and the remaining characters. -/
def stripSign : List Char → Bool × List Char
  | '-' :: rest => (true, rest)
  | '+' :: rest => (false, rest)
  | cs => (false, cs)

/-- Lower-case a character (ASCII only, which is all `float()` needs for
the `inf`/`infinity`/`nan` keywords). -/
def lowerChar (c : Char) : Char :=
  if 'A' ≤ c ∧ c ≤ 'Z' then Char.ofNat (c.toNat + 32) else c

/-- Parse a decimal mantissa `digits[.digits]` (either side may be empty
but not both) into a scaled decimal `(m, e)` with value `m * 10 ^ e`. -/
def parseMantissa (cs : List Char) : Option (ℤ × ℤ) :=
  let (intPart, fracPart) := splitFirst (· = '.') cs
  match fracPart with
  | none =>
    match digitsVal intPart with
    | some n => some ((n : ℤ), 0)
    | none => none
  | some fp =>
    if intPart = [] ∧ fp = [] then none
    else if (intPart.all Char.isDigit) ∧ (fp.all Char.isDigit) then
      let iv : ℕ := intPart.foldl (fun a c => a * 10 + (c.toNat - 48)) 0
      let fv : ℕ := fp.foldl (fun a c => a * 10 + (c.toNat - 48)) 0
      some (((iv * 10 ^ fp.length + fv : ℕ) : ℤ), -(fp.length : ℤ))
    else none

/-- Parse an optional exponent part (the characters after `e`/`E`). -/
def parseExponent : Option (List Char) → Option ℤ
  | none => some 0
  | some cs =>
    let (neg, ds) := stripSign cs
    match digitsVal ds with
    | some n => some (if neg then -(n : ℤ) else (n : ℤ))
    | none => none

/-- Model of Python `float(s)` on a string: optional surrounding
whitespace, optional sign, then `inf`/`infinity`/`nan` (case-insensitive)
or a decimal mantissa with optional exponent.  Returns `none` where
Python raises `ValueError`. -/
def parseFloat (s : String) : Option PyFloat :=
  let (neg, cs) := stripSign (trimChars s.data)
  let low := String.mk (cs.map lowerChar)
  if low = "inf" ∨ low = "infinity" then some (.inf (!neg))
  else if low = "nan" then some .nan
  else
    let (mant, expPart) := splitFirst (fun c => c = 'e' ∨ c = 'E') cs
    match parseMantissa mant, parseExponent expPart with
    | some (m, me), some e =>
      some (.fin (if neg then -m else m) (me + e))
    | _, _ => none

/-- Model of the Python builtin `float(value)` on an arbitrary payload
value: `none` where Python raises (`TypeError` on `None` and lists,
`ValueError` on non-numeric strings). -/
def pyFloat : JValue → Option PyFloat
  | .null => none
  | .bool b => some (.fin (if b then 1 else 0) 0)
  | .int n => some (.fin n 0)
  | .float f => some f
  | .str s => parseFloat s
  | .listv _ => none

/-- `_safe_float` from `app.py`: `try: return float(value) except:
return float("nan")`. -/
def safe_float (value : JValue) : PyFloat :=
  match pyFloat value with
  | some f => f
  | none => .nan

example : safe_float (.str "1.5") = .fin 15 (-1) := by decide
example : safe_float (.str "abc") = .nan := by decide
example : safe_float .null = .nan := by decide
example : safe_float (.str "-0") = .fin 0 0 := by decide
example : safe_float (.str " 2e3 ") = .fin 2 3 := by decide
example : safe_float (.str "inf") = .inf true := by decide
example : safe_float (.str "-Infinity") = .inf false := by decide
example : safe_float (.bool true) = .fin 1 0 := by decide
example : safe_float (.listv 0) = .nan := by decide
example : safe_float (.str "100.5") = .fin 1005 (-1) := by decide
example : safe_float (.str "") = .nan := by decide
example : safe_float (.str "1.") = .fin 1 0 := by decide
example : safe_float (.str ".5") = .fin 5 (-1) := by decide
example : safe_float (.str ".") = .nan := by decide
example : safe_float (.str "1e") = .nan := by decide

/-- Scaled-decimal comparison `m1 * 10 ^ e1 ≤ m2 * 10 ^ e2`, computed
exactly by bringing both sides to the smaller exponent. -/
def decLe (m1 e1 m2 e2 : ℤ) : Bool :=
  let emin := min e1 e2
  m1 * 10 ^ (e1 - emin).toNat ≤ m2 * 10 ^ (e2 - emin).toNat

/-- Exact microseconds value of `m * 10 ^ e` seconds, rounded half-up
(python rounds the float timestamp to whole microseconds). -/
def decMicros (m e : ℤ) : ℤ :=
  let e6 := e + 6
  if 0 ≤ e6 then m * 10 ^ e6.toNat
  else
    let d : ℤ := 10 ^ (-e6).toNat
    (2 * m + d).fdiv (2 * d)

/-- Least timestamp `datetime.fromtimestamp` accepts (0001-01-01T00:00:00
UTC), in seconds. -/
def minTimestamp : ℤ := -62135596800

/-- One past the greatest timestamp `datetime.fromtimestamp` accepts
(9999-12-31 ends just before this), in seconds. -/
def maxTimestamp : ℤ := 253402300800

/-- Model of `datetime.fromtimestamp(x, tz=timezone.utc)` on a float
number of seconds: `none` where Python raises (`OverflowError` on
infinities and huge values, `ValueError` on NaN and out-of-range years),
otherwise the instant as microseconds since the Unix epoch. -/
def pyFromtimestampUTC : PyFloat → Option ℤ
  | .nan => none
  | .inf _ => none
  | .fin m e =>
    if decLe minTimestamp 0 m e && !decLe maxTimestamp 0 m e then
      some (decMicros m e)
    else none

/-- Left-pad the decimal representation of `n` with zeros to width `w`. -/
def pad (w n : ℕ) : String :=
  let s := toString n
  String.mk (List.replicate (w - s.length) '0') ++ s

/-- Civil date (year, month, day) of a day count since the Unix epoch
(standard era-based conversion, proleptic Gregorian calendar, as used by
`datetime`). -/
def civilFromDays (z0 : ℤ) : ℤ × ℕ × ℕ :=
  let z := z0 + 719468
  let era := z.fdiv 146097
  let doe := (z - era * 146097).toNat
  let yoe := (doe - doe / 1460 + doe / 36524 - doe / 146096) / 365
  let doy := doe - (365 * yoe + yoe / 4 - yoe / 100)
  let mp := (5 * doy + 2) / 153
  let d := doy - (153 * mp + 2) / 5 + 1
  let m := if mp < 10 then mp + 3 else mp - 9
  let y : ℤ := (yoe : ℤ) + era * 400 + (if m ≤ 2 then 1 else 0)
  (y, m, d)

/-- Model of `datetime.isoformat()` on a UTC datetime given as
microseconds since the Unix epoch: `YYYY-MM-DDTHH:MM:SS[.ffffff]+00:00`,
the fractional part omitted when the microseconds are zero. -/
def isoformat (micros : ℤ) : String :=
  let day := micros.fdiv 86400000000
  let tod := (micros - day * 86400000000).toNat
  let (y, mo, d) := civilFromDays day
  let us := tod % 1000000
  let secs := tod / 1000000
  let h := secs / 3600
  let mi := secs % 3600 / 60
  let s := secs % 60
  pad 4 y.toNat ++ "-" ++ pad 2 mo ++ "-" ++ pad 2 d ++ "T" ++ pad 2 h ++
    ":" ++ pad 2 mi ++ ":" ++ pad 2 s ++
    (if us = 0 then "" else "." ++ pad 6 us) ++ "+00:00"

example : isoformat 1000000 = "1970-01-01T00:00:01+00:00" := by decide
example : isoformat 1700000000500000 = "2023-11-14T22:13:20.500000+00:00" := by decide

/-- A raw fill object as returned by the `userFillsByTime` API call; each
field is an arbitrary payload value, `null` also standing for an absent
key (Python `dict.get` returns `None` for both). -/
structure RawFill where
  time : JValue := .null
  timestamp : JValue := .null
  coin : JValue := .null
  side : JValue := .null
  dir : JValue := .null
  px : JValue := .null
  sz : JValue := .null
  closedPnl : JValue := .null
  fee : JValue := .null
  liquidation : JValue := .null
deriving DecidableEq

/-- A row of the fills output table, with the columns `app.py` builds. -/
structure FillRow where
  time : String
  label : String
  trader : String
  coin : JValue
  side : JValue
  dir : JValue
  price : PyFloat
  size : PyFloat
  notional : PyFloat
  closed_pnl : PyFloat
  fee : PyFloat
  liquidation : JValue
deriving DecidableEq

/-- `ts = fill.get("time") or fill.get("timestamp")` from `app.py` line
300: Python `or` keeps the first operand when it is truthy and otherwise
yields the second. -/
def chosenTs (fill : RawFill) : JValue :=
  if fill.time.truthy then fill.time else fill.timestamp

/-- `ts_ms = _safe_float(ts) if ts is not None else float("nan")` from
`app.py` line 301. -/
def tsMsOf (fill : RawFill) : PyFloat :=
  if chosenTs fill = JValue.null then PyFloat.nan else safe_float (chosenTs fill)

/-- One iteration of the per-fill loop in `app.py` (lines 299-324):
choose `time` or, when falsy, `timestamp`; convert to a float; when the
float is not NaN convert it with `datetime.fromtimestamp` (which can
raise, making the whole row construction fallible); normalize the numeric
fields with `_safe_float`; derive `notional`. -/
def mkFillRow (addr lbl : String) (fill : RawFill) : Except String FillRow :=
  let ts_ms := tsMsOf fill
  let dtE : Except String (Option ℤ) :=
    if ts_ms.selfEq then
      match pyFromtimestampUTC ts_ms.div1000 with
      | some mics => Except.ok (some mics)
      | none => Except.error "fromtimestamp: timestamp out of range"
    else Except.ok none
  match dtE with
  | Except.error e => Except.error e
  | Except.ok dt =>
    let px := safe_float fill.px
    let sz := safe_float fill.sz
    Except.ok
      { time := match dt with | some mics => isoformat mics | none => ""
        label := lbl
        trader := addr
        coin := fill.coin
        side := fill.side
        dir := fill.dir
        price := px
        size := sz
        notional := if px.selfEq && sz.selfEq then px.mul sz else PyFloat.nan
        closed_pnl := safe_float fill.closedPnl
        fee := safe_float fill.fee
        liquidation := fill.liquidation }

/-- A raw sidebar watch-list entry (`st.session_state["wallet_entries"]`
item); either field may be missing/None. -/
structure WalletEntry where
  label : Option String := none
  address : Option String := none

/-- A cleaned watch-list entry produced by `_parse_entries`. -/
structure Entry where
  address : String
  label : String
deriving DecidableEq

/-- `_parse_entries` from `app.py`: strip the address and label, drop
entries with an empty address, default the label to the address. -/
def parse_entries : List WalletEntry → List Entry
  | [] => []
  | item :: rest =>
    let addr := pyStrip (item.address.getD "")
    let label := pyStrip (item.label.getD "")
    if addr ≠ "" then
      { address := addr, label := if label = "" then addr else label } :: parse_entries rest
    else parse_entries rest

/-- `labels_by_address.get(addr, addr)`: the dict comprehension
`{e["address"]: e["label"] for e in entries}` keeps the label of the LAST
entry with a given address, and the lookup defaults to the address. -/
def labelFor (entries : List Entry) (addr : String) : String :=
  match (entries.filter (fun e => e.address = addr)).getLast? with
  | some e => e.label
  | none => addr

/-- The per-address row construction for one successful fills payload
(the inner `for fill in fills[: int(max_fills)]` loop body applied in
order; Python appends rows one at a time and the first raise aborts). -/
def buildRows (addr lbl : String) : List RawFill → Except String (List FillRow)
  | [] => Except.ok []
  | f :: rest =>
    match mkFillRow addr lbl f with
    | Except.error e => Except.error e
    | Except.ok r =>
      match buildRows addr lbl rest with
      | Except.error e => Except.error e
      | Except.ok rs => Except.ok (r :: rs)

/-- The fills fan-out loop of `app.py` (lines 292-324): for each address,
fetch (a transport failure is reported as an `(address, message)` pair
and processing continues), truncate to `max_fills`, and build rows.  A
raise inside row construction aborts the whole loop (it is outside the
`try`), hence the `Except` result. -/
def fillsLoop (lbl : String → String)
    (fetchF : String → Except String (Option (List RawFill))) (maxFills : ℕ) :
    List String → Except String (List FillRow × List (String × String))
  | [] => Except.ok ([], [])
  | addr :: rest =>
    match fetchF addr with
    | Except.error e =>
      match fillsLoop lbl fetchF maxFills rest with
      | Except.error e2 => Except.error e2
      | Except.ok (rows, errs) => Except.ok (rows, (addr, e) :: errs)
    | Except.ok v =>
      match buildRows addr (lbl addr) ((v.getD []).take maxFills) with
      | Except.error e2 => Except.error e2
      | Except.ok rs =>
        match fillsLoop lbl fetchF maxFills rest with
        | Except.error e2 => Except.error e2
        | Except.ok (rows, errs) => Except.ok (rs ++ rows, errs)

/-- The `leverage` object inside a position payload. -/
structure Leverage where
  type : JValue := .null
  value : JValue := .null
deriving DecidableEq

/-- A raw `position` object inside `assetPositions`; the numeric fields
are arbitrary payload values.  The API reports `coin` as a string, so it
is typed as present-or-absent string (the value the program sorts on). -/
structure Position where
  coin : Option String := none
  szi : JValue := .null
  entryPx : JValue := .null
  positionValue : JValue := .null
  unrealizedPnl : JValue := .null
  returnOnEquity : JValue := .null
  liquidationPx : JValue := .null
  marginUsed : JValue := .null
  leverage : Option Leverage := none
deriving DecidableEq

/-- An `assetPositions` element: `ap.get("position", {})` defaults to an
empty dict when the key is missing. -/
structure AssetPos where
  position : Option Position := none
deriving DecidableEq

/-- A `clearinghouseState` response; `assetPositions` may be missing or
null. -/
structure ClearState where
  assetPositions : Option (List AssetPos) := none
deriving DecidableEq

/-- A row of the positions output table, with the columns `app.py`
builds. -/
structure PosRow where
  label : String
  trader : String
  coin : Option String
  size : PyFloat
  entry_px : PyFloat
  position_value : PyFloat
  unrealized_pnl : PyFloat
  return_on_equity : PyFloat
  liquidation_px : PyFloat
  margin_used : PyFloat
  leverage_type : JValue
  leverage_value : PyFloat
deriving DecidableEq

/-- The positions row built from one raw position (`app.py` lines
352-367). -/
def mkPosRow (addr lbl : String) (pos : Position) (szi : PyFloat) : PosRow :=
  { label := lbl
    trader := addr
    coin := pos.coin
    size := szi
    entry_px := safe_float pos.entryPx
    position_value := safe_float pos.positionValue
    unrealized_pnl := safe_float pos.unrealizedPnl
    return_on_equity := safe_float pos.returnOnEquity
    liquidation_px := safe_float pos.liquidationPx
    margin_used := safe_float pos.marginUsed
    leverage_type := (pos.leverage.getD {}).type
    leverage_value := safe_float (pos.leverage.getD {}).value }

/-- The inner `for ap in asset_positions` loop of `app.py` (lines
347-367): normalize `szi`, skip the position when `szi == 0`, otherwise
append a row. -/
def posRowsForState (addr lbl : String) : List AssetPos → List PosRow
  | [] => []
  | ap :: rest =>
    let pos := ap.position.getD {}
    let szi := safe_float pos.szi
    if szi.eqZero then posRowsForState addr lbl rest
    else mkPosRow addr lbl pos szi :: posRowsForState addr lbl rest

/-- The positions fan-out loop of `app.py` (lines 340-367): per-address
fetch with failure reported as an `(address, message)` pair, absent/null
state or `assetPositions` treated as empty. -/
def posLoop (lbl : String → String)
    (fetchP : String → Except String (Option ClearState)) :
    List String → List PosRow × List (String × String)
  | [] => ([], [])
  | addr :: rest =>
    match fetchP addr with
    | Except.error e =>
      let (rows, errs) := posLoop lbl fetchP rest
      (rows, (addr, e) :: errs)
    | Except.ok stv =>
      let aps := ((stv.getD {}).assetPositions).getD []
      let (rows, errs) := posLoop lbl fetchP rest
      (posRowsForState addr (lbl addr) aps ++ rows, errs)

/-- Lexicographic `≤` on character lists by code point, the ordering
pandas applies to a string column. -/
def lexLe : List Char → List Char → Bool
  | [], _ => true
  | _ :: _, [] => false
  | a :: as, b :: bs => if a < b then true else if a = b then lexLe as bs else false

/-- Lexicographic `<` on character lists by code point. -/
def lexLt : List Char → List Char → Bool
  | [], [] => false
  | [], _ :: _ => true
  | _ :: _, [] => false
  | a :: as, b :: bs => if a < b then true else if a = b then lexLt as bs else false

/-- The comparator of `fills_df.sort_values(by="time", ascending=False)`:
row `a` precedes row `b` when `a.time` is lexically at least `b.time`. -/
def fillTimeGe (a b : FillRow) : Prop := lexLe b.time.data a.time.data = true

/-- Ordering on the `coin` column (string or missing); pandas places
missing values last (`na_position="last"`). -/
def coinLe : Option String → Option String → Bool
  | _, none => true
  | none, some _ => false
  | some s, some t => lexLe s.data t.data

/-- The comparator of `positions_df.sort_values(by=["trader", "coin"],
ascending=True)`: ascending lexicographic order on the `(trader, coin)`
pair. -/
def posKeyLe (a b : PosRow) : Prop :=
  lexLt a.trader.data b.trader.data = true ∨
    (a.trader = b.trader ∧ coinLe a.coin b.coin = true)

instance : DecidableRel fillTimeGe := fun a b => by
  unfold fillTimeGe; infer_instance

instance : DecidableRel posKeyLe := fun a b => by
  unfold posKeyLe; infer_instance

/-- `addresses = [e["address"] for e in entries]` from `app.py` line
236. -/
def addressesOf (entries : List Entry) : List String :=
  entries.map (·.address)

/-- The fills section of `app.py` (lines 291-329): run the fan-out loop
over the parsed watch-list addresses, then sort the rows descending by
the `time` column. -/
def fillsSection (entries : List Entry)
    (fetchF : String → Except String (Option (List RawFill))) (maxFills : ℕ) :
    Except String (List FillRow × List (String × String)) :=
  match fillsLoop (labelFor entries) fetchF maxFills (addressesOf entries) with
  | Except.error e => Except.error e
  | Except.ok (rows, errs) => Except.ok (List.insertionSort fillTimeGe rows, errs)

/-- The positions section of `app.py` (lines 338-372): run the fan-out
loop over the parsed watch-list addresses, then sort the rows ascending
by `(trader, coin)`. -/
def positionsSection (entries : List Entry)
    (fetchP : String → Except String (Option ClearState)) :
    List PosRow × List (String × String) :=
  let (rows, errs) := posLoop (labelFor entries) fetchP (addressesOf entries)
  (List.insertionSort posKeyLe rows, errs)

/-- Modelled from the spec: the TTL cache that `@st.cache_data(ttl=30)`
wraps around `fetch_recent_fills` / `fetch_positions_single` (the cache
implementation itself lives in the streamlit library, not in this
repository).  Entries map a key to a value and the time it was stored. -/
structure TTLCache (κ : Type) (α : Type) where
  entries : List (κ × α × ℕ)

/-- Look a key up in the cache, returning the stored value and its store
time. -/
def TTLCache.lookup {κ α : Type} [DecidableEq κ] (c : TTLCache κ α) (k : κ) :
    Option (α × ℕ) :=
  match c.entries.find? (fun e => e.1 = k) with
  | some (_, v, ts) => some (v, ts)
  | none => none

/-- Modelled from the spec: `st.cache_data.clear()` invalidates all
entries immediately. -/
def TTLCache.clear {κ α : Type} : TTLCache κ α := ⟨[]⟩

/-- Modelled from the spec: one cached call.  While the entry for `k` is
younger than `ttl`, the cached value is returned and `compute` (the
upstream API call) is not invoked; otherwise `compute` runs once and its
result replaces the entry.  The third component counts the upstream calls
this invocation performs (0 or 1). -/
def getOrCompute {κ α : Type} [DecidableEq κ] (c : TTLCache κ α)
    (ttl now : ℕ) (k : κ) (compute : Unit → α) : α × TTLCache κ α × ℕ :=
  match c.lookup k with
  | some (v, ts) =>
    if now < ts + ttl then (v, c, 0)
    else
      let v := compute ()
      (v, ⟨(k, v, now) :: c.entries.filter (fun e => ¬ e.1 = k)⟩, 1)
  | none =>
    let v := compute ()
    (v, ⟨(k, v, now) :: c.entries.filter (fun e => ¬ e.1 = k)⟩, 1)

section SanityChecks

/-- The fill of end-to-end scenario 1 of the spec. -/
def sampleFill : RawFill :=
  { time := .int 1000
    coin := .str "BTC"
    side := .str "B"
    px := .str "100.5"
    sz := .str "2"
    closedPnl := .str "0"
    fee := .str "0.1" }

/-- The row scenario 1 expects. -/
def sampleRow : FillRow :=
  { time := "1970-01-01T00:00:01+00:00"
    label := "A"
    trader := "0x1"
    coin := .str "BTC"
    side := .str "B"
    dir := .null
    price := .fin 1005 (-1)
    size := .fin 2 0
    notional := .fin 2010 (-1)
    closed_pnl := .fin 0 0
    fee := .fin 1 (-1)
    liquidation := .null }

example :
    fillsSection [{ address := "0x1", label := "A" }]
      (fun _ => Except.ok (some [sampleFill])) 200 =
      Except.ok ([sampleRow], []) := by rfl

/-- End-to-end scenario 2 of the spec: a position with `szi = "0"`
produces an empty positions table. -/
example :
    positionsSection [{ address := "0x1", label := "A" }]
      (fun _ => Except.ok (some
        { assetPositions := some [{ position := some { coin := some "ETH", szi := .str "0" } }] })) =
      ([], []) := by decide

/-- A minimal fill whose every field is absent. -/
def nullFill : RawFill := {}

/-- The row `nullFill` produces for address `a` and label `l`: empty
time, NaN numerics. -/
def nullRow (a l : String) : FillRow :=
  { time := ""
    label := l
    trader := a
    coin := .null
    side := .null
    dir := .null
    price := .nan
    size := .nan
    notional := .nan
    closed_pnl := .nan
    fee := .nan
    liquidation := .null }

example : mkFillRow "0x1" "A" nullFill = Except.ok (nullRow "0x1" "A") := by rfl

/-- End-to-end scenario 3 of the spec: two addresses, the first fails,
the second has one fill: one row, one failure entry. -/
example :
    fillsSection [{ address := "0x1", label := "A" }, { address := "0x2", label := "B" }]
      (fun a => if a = "0x1" then Except.error "timeout" else Except.ok (some [nullFill])) 200 =
      Except.ok ([nullRow "0x2" "B"], [("0x1", "timeout")]) := by rfl

end SanityChecks

theorem lexLe_cons (a b : Char) (as bs : List Char) :
    lexLe (a :: as) (b :: bs) = true ↔ a < b ∨ (a = b ∧ lexLe as bs = true) := by
  simp [lexLe]

theorem lexLt_cons (a b : Char) (as bs : List Char) :
    lexLt (a :: as) (b :: bs) = true ↔ a < b ∨ (a = b ∧ lexLt as bs = true) := by
  simp [lexLt]

theorem lexLe_total : ∀ as bs : List Char, lexLe as bs = true ∨ lexLe bs as = true := by
  intro as
  induction as with
  | nil => intro bs; left; rfl
  | cons a as ih =>
    intro bs
    cases bs with
    | nil => right; rfl
    | cons b bs =>
      rcases lt_trichotomy a b with h | h | h
      · left; exact (lexLe_cons a b as bs).mpr (Or.inl h)
      · subst h
        rcases ih bs with h2 | h2
        · left; exact (lexLe_cons a a as bs).mpr (Or.inr ⟨rfl, h2⟩)
        · right; exact (lexLe_cons a a bs as).mpr (Or.inr ⟨rfl, h2⟩)
      · right; exact (lexLe_cons b a bs as).mpr (Or.inl h)

theorem lexLe_trans :
    ∀ as bs cs : List Char, lexLe as bs = true → lexLe bs cs = true → lexLe as cs = true := by
  intro as
  induction as with
  | nil => intro bs cs _ _; rfl
  | cons a as ih =>
    intro bs cs h1 h2
    cases bs with
    | nil => cases h1
    | cons b bs =>
      cases cs with
      | nil => cases h2
      | cons c cs =>
        rcases (lexLe_cons a b as bs).mp h1 with hab | ⟨hab, h1'⟩ <;>
          rcases (lexLe_cons b c bs cs).mp h2 with hbc | ⟨hbc, h2'⟩
        · exact (lexLe_cons a c as cs).mpr (Or.inl (lt_trans hab hbc))
        · exact (lexLe_cons a c as cs).mpr (Or.inl (hbc ▸ hab))
        · exact (lexLe_cons a c as cs).mpr (Or.inl (hab ▸ hbc))
        · exact (lexLe_cons a c as cs).mpr (Or.inr ⟨hab.trans hbc, ih bs cs h1' h2'⟩)

theorem lexLt_trichotomy :
    ∀ as bs : List Char, lexLt as bs = true ∨ as = bs ∨ lexLt bs as = true := by
  intro as
  induction as with
  | nil =>
    intro bs
    cases bs with
    | nil => right; left; rfl
    | cons b bs => left; rfl
  | cons a as ih =>
    intro bs
    cases bs with
    | nil => right; right; rfl
    | cons b bs =>
      rcases lt_trichotomy a b with h | h | h
      · left; exact (lexLt_cons a b as bs).mpr (Or.inl h)
      · subst h
        rcases ih bs with h2 | h2 | h2
        · left; exact (lexLt_cons a a as bs).mpr (Or.inr ⟨rfl, h2⟩)
        · right; left; rw [h2]
        · right; right; exact (lexLt_cons a a bs as).mpr (Or.inr ⟨rfl, h2⟩)
      · right; right; exact (lexLt_cons b a bs as).mpr (Or.inl h)

theorem lexLt_trans :
    ∀ as bs cs : List Char, lexLt as bs = true → lexLt bs cs = true → lexLt as cs = true := by
  intro as
  induction as with
  | nil =>
    intro bs cs h1 h2
    cases bs with
    | nil => cases h1
    | cons b bs =>
      cases cs with
      | nil => cases h2
      | cons c cs => rfl
  | cons a as ih =>
    intro bs cs h1 h2
    cases bs with
    | nil => cases h1
    | cons b bs =>
      cases cs with
      | nil => cases h2
      | cons c cs =>
        rcases (lexLt_cons a b as bs).mp h1 with hab | ⟨hab, h1'⟩ <;>
          rcases (lexLt_cons b c bs cs).mp h2 with hbc | ⟨hbc, h2'⟩
        · exact (lexLt_cons a c as cs).mpr (Or.inl (lt_trans hab hbc))
        · exact (lexLt_cons a c as cs).mpr (Or.inl (hbc ▸ hab))
        · exact (lexLt_cons a c as cs).mpr (Or.inl (hab ▸ hbc))
        · exact (lexLt_cons a c as cs).mpr (Or.inr ⟨hab.trans hbc, ih bs cs h1' h2'⟩)

instance : IsTotal FillRow fillTimeGe :=
  ⟨fun a b => lexLe_total b.time.data a.time.data⟩

instance : IsTrans FillRow fillTimeGe :=
  ⟨fun _ _ _ h1 h2 => lexLe_trans _ _ _ h2 h1⟩

theorem coinLe_total : ∀ x y : Option String, coinLe x y = true ∨ coinLe y x = true := by
  intro x y
  cases x with
  | none => cases y with
    | none => left; rfl
    | some t => right; rfl
  | some s => cases y with
    | none => left; rfl
    | some t => exact lexLe_total s.data t.data

theorem coinLe_trans :
    ∀ x y z : Option String, coinLe x y = true → coinLe y z = true → coinLe x z = true := by
  intro x y z h1 h2
  rcases x with _ | s <;> rcases y with _ | u <;> rcases z with _ | t
  · rfl
  · exact absurd h2 (by simp [coinLe])
  · rfl
  · exact absurd h1 (by simp [coinLe])
  · rfl
  · exact absurd h2 (by simp [coinLe])
  · rfl
  · exact lexLe_trans _ _ _ h1 h2

instance : IsTotal PosRow posKeyLe := by
  constructor
  intro a b
  rcases lexLt_trichotomy a.trader.data b.trader.data with h | h | h
  · exact Or.inl (Or.inl h)
  · have heq : a.trader = b.trader := by
      cases ha : a.trader with
      | mk da => cases hb : b.trader with
        | mk db =>
          have : da = db := by
            have := h
            rw [ha, hb] at this
            exact this
          rw [this]
    rcases coinLe_total a.coin b.coin with h2 | h2
    · exact Or.inl (Or.inr ⟨heq, h2⟩)
    · exact Or.inr (Or.inr ⟨heq.symm, h2⟩)
  · exact Or.inr (Or.inl h)

instance : IsTrans PosRow posKeyLe := by
  constructor
  intro a b c h1 h2
  rcases h1 with h1 | ⟨h1, h1c⟩ <;> rcases h2 with h2 | ⟨h2, h2c⟩
  · exact Or.inl (lexLt_trans _ _ _ h1 h2)
  · exact Or.inl (h2 ▸ h1)
  · exact Or.inl (h1 ▸ h2)
  · exact Or.inr ⟨h1.trans h2, coinLe_trans _ _ _ h1c h2c⟩

/-- Whether an `Except` value is a success. -/
def exOk {ε α : Type} : Except ε α → Bool
  | Except.ok _ => true
  | Except.error _ => false

/-- The error message of a failed `Except String` value (empty on
success; only used on failures). -/
def exErrMsg {α : Type} : Except String α → String
  | Except.error e => e
  | Except.ok _ => ""

/-- The fills-table contribution of a single watch-list address: empty
when its fetch fails, otherwise the rows built from the first `maxFills`
raw fills (empty in the unreachable row-construction-error case). -/
def rowsOf (lbl : String → String)
    (fetchF : String → Except String (Option (List RawFill))) (maxFills : ℕ)
    (a : String) : List FillRow :=
  match fetchF a with
  | Except.error _ => []
  | Except.ok v =>
    match buildRows a (lbl a) ((v.getD []).take maxFills) with
    | Except.ok rs => rs
    | Except.error _ => []

/-- The positions-table contribution of a single watch-list address. -/
def posRowsOf (lbl : String → String)
    (fetchP : String → Except String (Option ClearState)) (a : String) :
    List PosRow :=
  match fetchP a with
  | Except.error _ => []
  | Except.ok stv => posRowsForState a (lbl a) (((stv.getD {}).assetPositions).getD [])

/-- Characterization of the fills fan-out loop when no row construction
raises: each address contributes its own rows in watch-list order, and
the failure list holds exactly one `(address, message)` pair per address
whose fetch failed, in order. -/
theorem fillsLoop_eq (lbl : String → String)
    (fetchF : String → Except String (Option (List RawFill))) (maxFills : ℕ) :
    ∀ as : List String,
    (∀ a ∈ as, ∀ v, fetchF a = Except.ok v →
      exOk (buildRows a (lbl a) ((v.getD []).take maxFills)) = true) →
    fillsLoop lbl fetchF maxFills as =
      Except.ok (as.flatMap (rowsOf lbl fetchF maxFills),
        (as.filter (fun a => !exOk (fetchF a))).map
          (fun a => (a, exErrMsg (fetchF a)))) := by
  intro as
  induction as with
  | nil => intro _; rfl
  | cons a rest ih =>
    intro h
    have ha := h a (List.mem_cons_self a rest)
    have hrest := ih (fun b hb v hv => h b (List.mem_cons_of_mem a hb) v hv)
    cases hfa : fetchF a with
    | error e =>
      simp only [fillsLoop, hfa, hrest]
      simp [rowsOf, hfa, exOk, exErrMsg]
    | ok v =>
      have hb := ha v hfa
      cases hbr : buildRows a (lbl a) ((v.getD []).take maxFills) with
      | error e2 => rw [hbr] at hb; cases hb
      | ok rs =>
        simp only [fillsLoop, hfa, hbr, hrest]
        simp [rowsOf, hfa, hbr, exOk]

/-- Characterization of the positions fan-out loop: each address
contributes its own rows in watch-list order, and the failure list holds
exactly one `(address, message)` pair per address whose fetch failed, in
order. -/
theorem posLoop_eq (lbl : String → String)
    (fetchP : String → Except String (Option ClearState)) :
    ∀ as : List String,
    posLoop lbl fetchP as =
      (as.flatMap (posRowsOf lbl fetchP),
        (as.filter (fun a => !exOk (fetchP a))).map
          (fun a => (a, exErrMsg (fetchP a)))) := by
  intro as
  induction as with
  | nil => rfl
  | cons a rest ih =>
    cases hfa : fetchP a with
    | error e =>
      simp only [posLoop, hfa, ih]
      simp [posRowsOf, hfa, exOk, exErrMsg]
    | ok stv =>
      simp only [posLoop, hfa, ih]
      simp [posRowsOf, hfa, exOk]

/-- A successfully built row block has one row per raw fill. -/
theorem buildRows_length (a l : String) :
    ∀ (fs : List RawFill) (rs : List FillRow),
    buildRows a l fs = Except.ok rs → rs.length = fs.length := by
  intro fs
  induction fs with
  | nil => intro rs h; cases h; rfl
  | cons f fs ih =>
    intro rs h
    unfold buildRows at h
    cases hf : mkFillRow a l f with
    | error e => rw [hf] at h; cases h
    | ok r =>
      rw [hf] at h
      cases hrec : buildRows a l fs with
      | error e => rw [hrec] at h; cases h
      | ok rs' =>
        rw [hrec] at h
        cases h
        simp [ih rs' hrec]

/-- Every row of a successfully built block comes from one of the raw
fills. -/
theorem buildRows_mem (a l : String) :
    ∀ (fs : List RawFill) (rs : List FillRow),
    buildRows a l fs = Except.ok rs →
    ∀ r ∈ rs, ∃ f, f ∈ fs ∧ mkFillRow a l f = Except.ok r := by
  intro fs
  induction fs with
  | nil => intro rs h r hr; cases h; cases hr
  | cons f fs ih =>
    intro rs h r hr
    unfold buildRows at h
    cases hf : mkFillRow a l f with
    | error e => rw [hf] at h; cases h
    | ok r0 =>
      rw [hf] at h
      cases hrec : buildRows a l fs with
      | error e => rw [hrec] at h; cases h
      | ok rs' =>
        rw [hrec] at h
        injection h with h2
        subst h2
        rcases List.mem_cons.mp hr with hr | hr
        · exact ⟨f, List.mem_cons_self f fs, hr ▸ hf⟩
        · rcases ih rs' hrec r hr with ⟨g, hg, hgr⟩
          exact ⟨g, List.mem_cons_of_mem f hg, hgr⟩

/-- Index-wise: the `i`-th row of a successfully built block is the
normalization of the `i`-th raw fill. -/
theorem buildRows_get (a l : String) :
    ∀ (fs : List RawFill) (rs : List FillRow),
    buildRows a l fs = Except.ok rs →
    ∀ (i : ℕ) (hi : i < fs.length) (hi' : i < rs.length),
    mkFillRow a l (fs.get ⟨i, hi⟩) = Except.ok (rs.get ⟨i, hi'⟩) := by
  intro fs
  induction fs with
  | nil => intro rs h i hi; cases hi
  | cons f fs ih =>
    intro rs h i hi hi'
    unfold buildRows at h
    cases hf : mkFillRow a l f with
    | error e => rw [hf] at h; cases h
    | ok r0 =>
      rw [hf] at h
      cases hrec : buildRows a l fs with
      | error e => rw [hrec] at h; cases h
      | ok rs' =>
        rw [hrec] at h
        injection h with h2
        subst h2
        cases i with
        | zero => exact hf
        | succ i => exact ih rs' hrec i (Nat.lt_of_succ_lt_succ hi) (Nat.lt_of_succ_lt_succ hi')

/-- A successfully built fill row carries the loop's address and label. -/
theorem mkFillRow_fields (a l : String) (fill : RawFill) (row : FillRow) :
    mkFillRow a l fill = Except.ok row → row.trader = a ∧ row.label = l := by
  intro h
  simp only [mkFillRow] at h
  split at h
  · cases h
  · cases h
    exact ⟨rfl, rfl⟩

/-- The position-skip predicate of `app.py` line 350: a position is kept
exactly when its normalized signed size does not compare equal to 0. -/
def keepPos (ap : AssetPos) : Bool :=
  !(safe_float (ap.position.getD {}).szi).eqZero

/-- The inner positions loop is exactly a filter (drop `szi == 0`)
followed by row construction. -/
theorem posRowsForState_eq (a l : String) :
    ∀ aps : List AssetPos,
    posRowsForState a l aps =
      (aps.filter keepPos).map
        (fun ap => mkPosRow a l (ap.position.getD {})
          (safe_float (ap.position.getD {}).szi)) := by
  intro aps
  induction aps with
  | nil => rfl
  | cons ap rest ih =>
    by_cases hz : (safe_float (ap.position.getD {}).szi).eqZero = true
    · simp only [posRowsForState, hz, if_pos]
      rw [ih]
      simp [List.filter, keepPos, hz]
    · have hz' : (safe_float (ap.position.getD {}).szi).eqZero = false :=
        Bool.eq_false_iff.mpr hz
      simp only [posRowsForState, hz', if_neg, Bool.false_eq_true, not_false_iff]
      rw [ih]
      simp [List.filter, keepPos, hz']

/-- Every produced positions row carries the loop's address and label. -/
theorem posRowsForState_fields (a l : String) (aps : List AssetPos) :
    ∀ r ∈ posRowsForState a l aps, r.trader = a ∧ r.label = l := by
  intro r hr
  rw [posRowsForState_eq] at hr
  rcases List.mem_map.mp hr with ⟨ap, _, hap⟩
  rw [← hap]
  exact ⟨rfl, rfl⟩

/-- `x == x` is exactly the complement of the NaN test. -/
theorem PyFloat.selfEq_eq_not_isNan (f : PyFloat) : f.selfEq = !f.isNan := by
  cases f <;> rfl

/-- An ISO-formatted datetime string is never empty (it ends in the UTC
offset `+00:00`). -/
theorem isoformat_ne_empty (m : ℤ) : isoformat m ≠ "" := by
  intro h
  unfold isoformat at h
  have hd := congrArg String.data h
  rw [String.data_append] at hd
  rcases List.append_eq_nil.mp hd with ⟨_, h2⟩
  cases h2

/-- A row contributed by an address comes from a successful fetch and
carries that address and its canonical label. -/
theorem rowsOf_sound (lbl : String → String)
    (fetchF : String → Except String (Option (List RawFill))) (maxFills : ℕ)
    (a : String) (r : FillRow) (hr : r ∈ rowsOf lbl fetchF maxFills a) :
    exOk (fetchF a) = true ∧ r.trader = a ∧ r.label = lbl a := by
  cases hfa : fetchF a with
  | error e => simp only [rowsOf, hfa] at hr; cases hr
  | ok v =>
    simp only [rowsOf, hfa] at hr
    cases hbr : buildRows a (lbl a) ((v.getD []).take maxFills) with
    | error e => simp only [hbr] at hr; cases hr
    | ok rs =>
      simp only [hbr] at hr
      rcases buildRows_mem a (lbl a) _ rs hbr r hr with ⟨f, _, hf⟩
      rcases mkFillRow_fields a (lbl a) f r hf with ⟨h1, h2⟩
      exact ⟨rfl, h1, h2⟩

/-- A positions row contributed by an address comes from a successful
fetch and carries that address and its canonical label. -/
theorem posRowsOf_sound (lbl : String → String)
    (fetchP : String → Except String (Option ClearState))
    (a : String) (r : PosRow) (hr : r ∈ posRowsOf lbl fetchP a) :
    exOk (fetchP a) = true ∧ r.trader = a ∧ r.label = lbl a := by
  cases hfa : fetchP a with
  | error e => simp only [posRowsOf, hfa] at hr; cases hr
  | ok stv =>
    simp only [posRowsOf, hfa] at hr
    rcases posRowsForState_fields a (lbl a) _ r hr with ⟨h1, h2⟩
    exact ⟨rfl, h1, h2⟩

/-- The hypothesis that no row construction raises: every successful
fills payload, truncated to `max_fills`, normalizes without an exception
(all its timestamps are in `datetime`'s supported range). -/
def noRowRaises (entries : List Entry)
    (fetchF : String → Except String (Option (List RawFill))) (maxFills : ℕ) : Prop :=
  ∀ a ∈ addressesOf entries, ∀ v, fetchF a = Except.ok v →
    exOk (buildRows a (labelFor entries a) ((v.getD []).take maxFills)) = true

/-- Under `noRowRaises`, the fills section succeeds and produces the
sorted concatenation of the per-address contributions together with the
per-address failure list. -/
theorem fillsSection_eq (entries : List Entry)
    (fetchF : String → Except String (Option (List RawFill))) (maxFills : ℕ)
    (hwf : noRowRaises entries fetchF maxFills) :
    fillsSection entries fetchF maxFills =
      Except.ok
        (List.insertionSort fillTimeGe
          ((addressesOf entries).flatMap
            (rowsOf (labelFor entries) fetchF maxFills)),
        ((addressesOf entries).filter (fun a => !exOk (fetchF a))).map
          (fun a => (a, exErrMsg (fetchF a)))) := by
  unfold fillsSection
  rw [fillsLoop_eq (labelFor entries) fetchF maxFills (addressesOf entries) hwf]

/-- The positions section always produces the sorted concatenation of
the per-address contributions together with the per-address failure
list. -/
theorem positionsSection_eq (entries : List Entry)
    (fetchP : String → Except String (Option ClearState)) :
    positionsSection entries fetchP =
      (List.insertionSort posKeyLe
        ((addressesOf entries).flatMap (posRowsOf (labelFor entries) fetchP)),
      ((addressesOf entries).filter (fun a => !exOk (fetchP a))).map
        (fun a => (a, exErrMsg (fetchP a)))) := by
  unfold positionsSection
  rw [posLoop_eq (labelFor entries) fetchP (addressesOf entries)]

/-- Under `noRowRaises`, the fills table is a permutation of the
concatenated per-address contributions (the sort reorders rows but the
cap and normalization happened before it). -/
theorem fillsSection_perm (entries : List Entry)
    (fetchF : String → Except String (Option (List RawFill))) (maxFills : ℕ)
    (hwf : noRowRaises entries fetchF maxFills)
    (tbl : List FillRow) (errs : List (String × String))
    (h : fillsSection entries fetchF maxFills = Except.ok (tbl, errs)) :
    tbl.Perm
      ((addressesOf entries).flatMap (rowsOf (labelFor entries) fetchF maxFills)) := by
  rw [fillsSection_eq entries fetchF maxFills hwf] at h
  injection h with h2
  have h3 : tbl = List.insertionSort fillTimeGe
      ((addressesOf entries).flatMap (rowsOf (labelFor entries) fetchF maxFills)) :=
    (congrArg Prod.fst h2).symm
  rw [h3]
  exact List.perm_insertionSort fillTimeGe _

/-- C2: for every fill record, after normalizing price and size with
`_safe_float`, the derived `notional` is NaN whenever either normalized
value is NaN, and otherwise is exactly the product of the two normalized
floats. -/
theorem claim2_notional (addr lbl : String) (fill : RawFill) (row : FillRow)
    (h : mkFillRow addr lbl fill = Except.ok row) :
    row.price = safe_float fill.px ∧ row.size = safe_float fill.sz ∧
    (((safe_float fill.px).isNan = true ∨ (safe_float fill.sz).isNan = true) →
      row.notional = PyFloat.nan) ∧
    ((safe_float fill.px).isNan = false → (safe_float fill.sz).isNan = false →
      row.notional = PyFloat.mul (safe_float fill.px) (safe_float fill.sz)) := by
  simp only [mkFillRow] at h
  split at h
  · cases h
  · injection h with h2
    subst h2
    refine ⟨rfl, rfl, ?_, ?_⟩
    · intro hor
      rcases hor with hp | hs
      · simp [PyFloat.selfEq_eq_not_isNan, hp]
      · simp [PyFloat.selfEq_eq_not_isNan, hs]
    · intro hp hs
      simp [PyFloat.selfEq_eq_not_isNan, hp, hs]

/-- Witness for C2 at the sample fill of scenario 1 (`px = "100.5"`,
`sz = "2"`). -/
theorem claim2_notional_witness :
    sampleRow.notional = PyFloat.mul (safe_float sampleFill.px) (safe_float sampleFill.sz) :=
  (claim2_notional "0x1" "A" sampleFill sampleRow (by rfl)).2.2.2 (by decide) (by decide)

/-- C3: an asset position contributes a row exactly when its normalized
signed size (`szi`) does not compare equal to 0: the inner loop is the
filter on `szi == 0` followed by row construction.  NaN sizes are kept
(NaN does not compare equal to 0), while string zeros (`"0"`, `"-0"`)
are excluded. -/
theorem claim3_zero_size_excluded (a l : String) (aps : List AssetPos) :
    posRowsForState a l aps =
      (aps.filter keepPos).map
        (fun ap => mkPosRow a l (ap.position.getD {})
          (safe_float (ap.position.getD {}).szi)) ∧
    (safe_float (JValue.str "0")).eqZero = true ∧
    (safe_float (JValue.str "-0")).eqZero = true ∧
    (safe_float JValue.null).isNan = true ∧
    (safe_float JValue.null).eqZero = false ∧
    keepPos { position := some { szi := JValue.null } } = true ∧
    keepPos { position := some { szi := JValue.str "0" } } = false := by
  refine ⟨posRowsForState_eq a l aps, ?_, ?_, ?_, ?_, ?_, ?_⟩ <;> decide

/-- C5: the numeric normalizer `_safe_float` is a total function: when
the Python `float()` conversion succeeds it returns that float, and on
any conversion failure (`None`, non-numeric string, wrong type) it
returns NaN. -/
theorem claim5_safe_float :
    (∀ v : JValue, ∀ f : PyFloat, pyFloat v = some f → safe_float v = f) ∧
    (∀ v : JValue, pyFloat v = none → safe_float v = PyFloat.nan) ∧
    safe_float JValue.null = PyFloat.nan ∧
    safe_float (JValue.str "not-a-number") = PyFloat.nan ∧
    safe_float (JValue.listv 2) = PyFloat.nan ∧
    safe_float (JValue.str "100.5") = PyFloat.fin 1005 (-1) := by
  refine ⟨?_, ?_, by decide, by decide, by decide, by decide⟩
  · intro v f h
    unfold safe_float
    rw [h]
  · intro v h
    unfold safe_float
    rw [h]

/-- Witness for C5: the conversion-failure branch at the concrete wrong
typed input `[1, 2, 3]`. -/
theorem claim5_safe_float_witness : safe_float (JValue.listv 3) = PyFloat.nan :=
  claim5_safe_float.2.1 (JValue.listv 3) rfl

/-- C4: any fills table the section produces is sorted descending by the
`time` column under lexical string order (and the empty string — the
rendering of an absent or malformed time — is the least string in that
order, so such rows sort at the bottom); the positions table is sorted
ascending by the `(trader, coin)` pair. -/
theorem claim4_table_ordering (entries : List Entry)
    (fetchF : String → Except String (Option (List RawFill)))
    (fetchP : String → Except String (Option ClearState)) (maxFills : ℕ) :
    (∀ tbl errs, fillsSection entries fetchF maxFills = Except.ok (tbl, errs) →
      List.Sorted fillTimeGe tbl) ∧
    List.Sorted posKeyLe (positionsSection entries fetchP).1 ∧
    (∀ s : String, lexLe "".data s.data = true) := by
  refine ⟨?_, ?_, fun _ => rfl⟩
  · intro tbl errs h
    unfold fillsSection at h
    cases hl : fillsLoop (labelFor entries) fetchF maxFills (addressesOf entries) with
    | error e => rw [hl] at h; cases h
    | ok p =>
      rw [hl] at h
      injection h with h2
      have h3 : tbl = List.insertionSort fillTimeGe p.1 := (congrArg Prod.fst h2).symm
      rw [h3]
      exact List.sorted_insertionSort fillTimeGe p.1
  · rw [positionsSection_eq]
    exact List.sorted_insertionSort posKeyLe _

/-- Witness for C4 at scenario 1's concrete input. -/
theorem claim4_table_ordering_witness : List.Sorted fillTimeGe [sampleRow] :=
  (claim4_table_ordering [{ address := "0x1", label := "A" }]
    (fun _ => Except.ok (some [sampleFill])) (fun _ => Except.error "down") 200).1
    [sampleRow] [] (by rfl)

/-- Decidable form of `noRowRaises`: checked by evaluation over the
finite watch-list. -/
def noRowRaisesB (entries : List Entry)
    (fetchF : String → Except String (Option (List RawFill))) (maxFills : ℕ) : Bool :=
  (addressesOf entries).all (fun a =>
    match fetchF a with
    | Except.error _ => true
    | Except.ok v => exOk (buildRows a (labelFor entries a) ((v.getD []).take maxFills)))

/-- Mapping `Prod.fst` over a graph-style pairing recovers the list. -/
theorem map_fst_pair {α β : Type} (g : α → β) (l : List α) :
    (l.map (fun a => (a, g a))).map Prod.fst = l := by
  induction l with
  | nil => rfl
  | cons a l ih => simp [ih]

/-- The Boolean check implies the propositional form. -/
theorem noRowRaisesB_spec (entries : List Entry)
    (fetchF : String → Except String (Option (List RawFill))) (maxFills : ℕ)
    (h : noRowRaisesB entries fetchF maxFills = true) :
    noRowRaises entries fetchF maxFills := by
  intro a ha v hv
  have h2 := List.all_eq_true.mp h a ha
  rw [hv] at h2
  exact h2

/-- C1: with a watch-list of N addresses of which exactly K fail (per
fetcher), each table's failure list holds exactly the K failed addresses
(one entry each, in order) and the table's rows come only from the
succeeding addresses; the two tables are independent fault domains (the
positions conclusions hold whatever `fetchF` does and vice versa). -/
theorem claim1_failure_isolation (entries : List Entry)
    (fetchF : String → Except String (Option (List RawFill)))
    (fetchP : String → Except String (Option ClearState)) (maxFills : ℕ)
    (hwf : noRowRaisesB entries fetchF maxFills = true) :
    exOk (fillsSection entries fetchF maxFills) = true ∧
    (∀ tbl errs, fillsSection entries fetchF maxFills = Except.ok (tbl, errs) →
      errs.map Prod.fst = (addressesOf entries).filter (fun a => !exOk (fetchF a)) ∧
      errs.length = ((addressesOf entries).filter (fun a => !exOk (fetchF a))).length ∧
      ∀ r ∈ tbl, r.trader ∈ (addressesOf entries).filter (fun a => exOk (fetchF a))) ∧
    ((positionsSection entries fetchP).2.map Prod.fst =
      (addressesOf entries).filter (fun a => !exOk (fetchP a))) ∧
    (∀ r ∈ (positionsSection entries fetchP).1,
      r.trader ∈ (addressesOf entries).filter (fun a => exOk (fetchP a))) := by
  have hfe := fillsSection_eq entries fetchF maxFills (noRowRaisesB_spec _ _ _ hwf)
  refine ⟨by rw [hfe]; rfl, ?_, ?_, ?_⟩
  · intro tbl errs h
    rw [hfe] at h
    injection h with h2
    have htbl : tbl = List.insertionSort fillTimeGe
        ((addressesOf entries).flatMap (rowsOf (labelFor entries) fetchF maxFills)) :=
      (congrArg Prod.fst h2).symm
    have herrs : errs = ((addressesOf entries).filter (fun a => !exOk (fetchF a))).map
        (fun a => (a, exErrMsg (fetchF a))) :=
      (congrArg Prod.snd h2).symm
    refine ⟨?_, ?_, ?_⟩
    · rw [herrs, map_fst_pair]
    · rw [herrs, List.length_map]
    · intro r hr
      rw [htbl] at hr
      have hr' := (List.perm_insertionSort fillTimeGe _).subset hr
      rcases List.mem_flatMap.mp hr' with ⟨a, ha, hra⟩
      rcases rowsOf_sound _ _ _ _ _ hra with ⟨hok, htr, _⟩
      rw [htr]
      exact List.mem_filter.mpr ⟨ha, hok⟩
  · rw [positionsSection_eq]
    exact map_fst_pair _ _
  · rw [positionsSection_eq]
    intro r hr
    have hr' := (List.perm_insertionSort posKeyLe _).subset hr
    rcases List.mem_flatMap.mp hr' with ⟨a, ha, hra⟩
    rcases posRowsOf_sound _ _ _ _ hra with ⟨hok, htr, _⟩
    rw [htr]
    exact List.mem_filter.mpr ⟨ha, hok⟩

/-- The three-address watch-list used to witness C1. -/
def wEntries : List Entry :=
  [{ address := "0x1", label := "A" }, { address := "0x2", label := "B" },
   { address := "0x3", label := "C" }]

/-- A fills fetcher that fails for `0x2` only. -/
def wFetchF (a : String) : Except String (Option (List RawFill)) :=
  if a = "0x2" then Except.error "fills down" else Except.ok (some [nullFill])

/-- The clearinghouse state the witness's succeeding addresses report. -/
def wState : ClearState :=
  { assetPositions := some [{ position := some { coin := some "ETH", szi := JValue.str "1" } }] }

/-- A positions fetcher that fails for `0x3` only. -/
def wFetchP (a : String) : Except String (Option ClearState) :=
  if a = "0x3" then Except.error "positions down" else Except.ok (some wState)

/-- Witness for C1: N = 3 addresses, K = 1 fills failure (`0x2`) and one
positions failure (`0x3`); the fills section succeeds and the positions
failure list is exactly `["0x3"]`. -/
theorem claim1_failure_isolation_witness :
    exOk (fillsSection wEntries wFetchF 10) = true ∧
    ((positionsSection wEntries wFetchP).2.map Prod.fst =
      (addressesOf wEntries).filter (fun a => !exOk (wFetchP a))) :=
  ⟨(claim1_failure_isolation wEntries wFetchF wFetchP 10 (by rfl)).1,
   (claim1_failure_isolation wEntries wFetchF wFetchP 10 (by rfl)).2.2.1⟩

/-- C6: for an address whose fills fetch succeeds, exactly the first
`min(M, max_fills)` raw entries, in upstream order, are normalized into
its contribution; the cap is a slice of the raw list taken before
normalization, and the final sort happens only afterwards on the
concatenated capped contributions. -/
theorem claim6_max_fills_cap (entries : List Entry)
    (fetchF : String → Except String (Option (List RawFill))) (maxFills : ℕ)
    (a : String) (v : Option (List RawFill)) (rs : List FillRow)
    (ha : fetchF a = Except.ok v)
    (hb : buildRows a (labelFor entries a) ((v.getD []).take maxFills) = Except.ok rs) :
    rowsOf (labelFor entries) fetchF maxFills a = rs ∧
    rs.length = min maxFills (v.getD []).length ∧
    ((v.getD []).take maxFills) <+: (v.getD []) ∧
    (∀ (i : ℕ) (hi : i < ((v.getD []).take maxFills).length) (hi' : i < rs.length),
      mkFillRow a (labelFor entries a) (((v.getD []).take maxFills).get ⟨i, hi⟩) =
        Except.ok (rs.get ⟨i, hi'⟩)) ∧
    (noRowRaisesB entries fetchF maxFills = true →
      ∀ tbl errs, fillsSection entries fetchF maxFills = Except.ok (tbl, errs) →
        tbl.Perm ((addressesOf entries).flatMap
          (rowsOf (labelFor entries) fetchF maxFills))) := by
  refine ⟨by simp only [rowsOf, ha, hb], ?_, List.take_prefix maxFills (v.getD []), ?_, ?_⟩
  · rw [buildRows_length a (labelFor entries a) _ rs hb, List.length_take]
  · exact buildRows_get a (labelFor entries a) _ rs hb
  · intro hwfB tbl errs h
    exact fillsSection_perm entries fetchF maxFills
      (noRowRaisesB_spec entries fetchF maxFills hwfB) tbl errs h

/-- A fetcher returning three raw fills for every address, used to
witness the cap. -/
def w6Fetch (_ : String) : Except String (Option (List RawFill)) :=
  Except.ok (some [nullFill, nullFill, nullFill])

/-- Witness for C6: `max_fills = 2` against a 3-element raw list keeps
exactly the first `min 2 3 = 2` entries. -/
theorem claim6_max_fills_cap_witness :
    rowsOf (labelFor wEntries) w6Fetch 2 "0x1" = [nullRow "0x1" "A", nullRow "0x1" "A"] ∧
    ([nullRow "0x1" "A", nullRow "0x1" "A"] : List FillRow).length =
      min 2 ((some [nullFill, nullFill, nullFill]).getD []).length :=
  ⟨(claim6_max_fills_cap wEntries w6Fetch 2 "0x1" (some [nullFill, nullFill, nullFill])
      [nullRow "0x1" "A", nullRow "0x1" "A"] (by rfl) (by rfl)).1,
   (claim6_max_fills_cap wEntries w6Fetch 2 "0x1" (some [nullFill, nullFill, nullFill])
      [nullRow "0x1" "A", nullRow "0x1" "A"] (by rfl) (by rfl)).2.1⟩

/-- The duplicate-address watch-list: the same address under two
different labels. -/
def dupEntries : List Entry :=
  [{ address := "0x1", label := "L1" }, { address := "0x1", label := "L2" }]

/-- A fetcher returning one raw fill for every address. -/
def dupFetch (_ : String) : Except String (Option (List RawFill)) :=
  Except.ok (some [nullFill])

/-- C7 counterexample: with the same address listed under labels `L1`
and `L2`, both occurrences are fetched and contribute one row each, but
BOTH rows carry the label of the last entry (`L2`) — the dict
comprehension `{e["address"]: e["label"] for e in entries}` keeps only
the last label per address, so the first occurrence's row does not carry
its own entry's label `L1`. -/
theorem claim7_per_entry_label_counterexample :
    fillsSection dupEntries dupFetch 10 =
      Except.ok ([nullRow "0x1" "L2", nullRow "0x1" "L2"], []) ∧
    labelFor dupEntries "0x1" = "L2" ∧
    [nullRow "0x1" "L2", nullRow "0x1" "L2"].map FillRow.label = ["L2", "L2"] ∧
    "L1" ∉ [nullRow "0x1" "L2", nullRow "0x1" "L2"].map FillRow.label :=
  ⟨rfl, rfl, rfl, by decide⟩

/-- C7 amended: duplicate addresses are not deduplicated — each
occurrence is fetched independently and contributes its own rows — but
every row for a given address carries the single canonical label of the
LAST watch-list entry with that address (the dict-comprehension lookup),
not the label of the occurrence that produced it. -/
theorem claim7_canonical_label (entries : List Entry)
    (fetchF : String → Except String (Option (List RawFill)))
    (fetchP : String → Except String (Option ClearState)) (maxFills : ℕ)
    (hwf : noRowRaisesB entries fetchF maxFills = true) :
    (∀ tbl errs, fillsSection entries fetchF maxFills = Except.ok (tbl, errs) →
      tbl.Perm ((addressesOf entries).flatMap
        (rowsOf (labelFor entries) fetchF maxFills)) ∧
      ∀ r ∈ tbl, r.label = labelFor entries r.trader) ∧
    ((positionsSection entries fetchP).1.Perm
      ((addressesOf entries).flatMap (posRowsOf (labelFor entries) fetchP)) ∧
     ∀ r ∈ (positionsSection entries fetchP).1, r.label = labelFor entries r.trader) := by
  constructor
  · intro tbl errs h
    have hperm := fillsSection_perm entries fetchF maxFills
      (noRowRaisesB_spec entries fetchF maxFills hwf) tbl errs h
    refine ⟨hperm, ?_⟩
    intro r hr
    rcases List.mem_flatMap.mp (hperm.subset hr) with ⟨a, _, hra⟩
    rcases rowsOf_sound _ _ _ _ _ hra with ⟨_, htr, hlb⟩
    rw [hlb, htr]
  · rw [positionsSection_eq]
    refine ⟨List.perm_insertionSort posKeyLe _, ?_⟩
    intro r hr
    rcases List.mem_flatMap.mp ((List.perm_insertionSort posKeyLe _).subset hr) with
      ⟨a, _, hra⟩
    rcases posRowsOf_sound _ _ _ _ hra with ⟨_, htr, hlb⟩
    rw [hlb, htr]

/-- Witness for C7 (amended): at the duplicate watch-list, the first row
of the table carries the canonical label of its trader. -/
theorem claim7_canonical_label_witness :
    (nullRow "0x1" "L2").label = labelFor dupEntries (nullRow "0x1" "L2").trader :=
  ((claim7_canonical_label dupEntries dupFetch (fun _ => Except.error "down") 10
      (by rfl)).1
    [nullRow "0x1" "L2", nullRow "0x1" "L2"] [] (by rfl)).2
    (nullRow "0x1" "L2") (by decide)

/-- Looking up the key just stored at the head of the entry list finds
it. -/
theorem TTLCache.lookup_cons_self {κ α : Type} [DecidableEq κ]
    (k : κ) (v : α) (ts : ℕ) (es : List (κ × α × ℕ)) :
    (TTLCache.mk ((k, v, ts) :: es) : TTLCache κ α).lookup k = some (v, ts) := by
  unfold TTLCache.lookup
  rw [List.find?_cons_of_pos _ (by simp)]

/-- A call that finds an entry younger than the TTL returns the cached
value without touching the cache and performs no upstream call. -/
theorem getOrCompute_hit {κ α : Type} [DecidableEq κ] (c : TTLCache κ α)
    (ttl now : ℕ) (k : κ) (v : α) (ts : ℕ) (g : Unit → α)
    (h : c.lookup k = some (v, ts)) (hlt : now < ts + ttl) :
    getOrCompute c ttl now k g = (v, c, 0) := by
  unfold getOrCompute
  rw [h]
  dsimp only
  rw [if_pos hlt]

/-- C8 (modelled from the spec, since the cache implementation lives in
the streamlit library): while the entry for a key is younger than the
TTL, a call returns the cached value with zero upstream calls and leaves
the cache unchanged; once the entry's age reaches the TTL, the next call
performs exactly one upstream call and replaces the entry; `clear`
empties the cache; and a cold call followed by a call within the TTL
performs one and then zero upstream calls. -/
theorem claim8_ttl_cache {κ α : Type} [DecidableEq κ] (c : TTLCache κ α)
    (ttl t1 t2 : ℕ) (k : κ) (f g : Unit → α) :
    (∀ v ts, c.lookup k = some (v, ts) → t2 < ts + ttl →
      getOrCompute c ttl t2 k g = (v, c, 0)) ∧
    (∀ v ts, c.lookup k = some (v, ts) → ts + ttl ≤ t2 →
      (getOrCompute c ttl t2 k g).1 = g () ∧
      (getOrCompute c ttl t2 k g).2.2 = 1 ∧
      ((getOrCompute c ttl t2 k g).2.1).lookup k = some (g (), t2)) ∧
    ((TTLCache.clear : TTLCache κ α).lookup k = none) ∧
    (c.lookup k = none → t2 < t1 + ttl →
      (getOrCompute c ttl t1 k f).2.2 = 1 ∧
      (getOrCompute c ttl t1 k f).1 = f () ∧
      getOrCompute (getOrCompute c ttl t1 k f).2.1 ttl t2 k g =
        (f (), (getOrCompute c ttl t1 k f).2.1, 0)) := by
  refine ⟨?_, ?_, rfl, ?_⟩
  · intro v ts h hlt
    exact getOrCompute_hit c ttl t2 k v ts g h hlt
  · intro v ts h hle
    have hnot : ¬ t2 < ts + ttl := not_lt.mpr hle
    have hcall : getOrCompute c ttl t2 k g =
        (g (), ⟨(k, g (), t2) :: c.entries.filter (fun e => ¬ e.1 = k)⟩, 1) := by
      unfold getOrCompute
      rw [h]
      dsimp only
      rw [if_neg hnot]
    rw [hcall]
    exact ⟨rfl, rfl, TTLCache.lookup_cons_self k (g ()) t2 _⟩
  · intro h hlt
    have hfirst : getOrCompute c ttl t1 k f =
        (f (), ⟨(k, f (), t1) :: c.entries.filter (fun e => ¬ e.1 = k)⟩, 1) := by
      unfold getOrCompute
      rw [h]
    rw [hfirst]
    refine ⟨rfl, rfl, ?_⟩
    exact getOrCompute_hit _ ttl t2 k (f ()) t1 g
      (TTLCache.lookup_cons_self k (f ()) t1 _) hlt

/-- Witness for C8: the two-call scenario over the fills fetch key type
`(address, start_ms, end_ms, aggregate_by_time)` with `ttl = 30`: a cold
call at `t = 0` performs one upstream call, a second call at `t = 10`
performs none and returns the cached payload. -/
theorem claim8_ttl_cache_witness :
    (getOrCompute (TTLCache.clear : TTLCache (String × ℤ × ℤ × Bool) (List RawFill))
      30 0 ("0x1", 0, 1000, false) (fun _ => [nullFill])).2.2 = 1 ∧
    getOrCompute
      (getOrCompute (TTLCache.clear : TTLCache (String × ℤ × ℤ × Bool) (List RawFill))
        30 0 ("0x1", 0, 1000, false) (fun _ => [nullFill])).2.1
      30 10 ("0x1", 0, 1000, false) (fun _ => []) =
      ([nullFill],
       (getOrCompute (TTLCache.clear : TTLCache (String × ℤ × ℤ × Bool) (List RawFill))
         30 0 ("0x1", 0, 1000, false) (fun _ => [nullFill])).2.1, 0) :=
  ⟨(claim8_ttl_cache TTLCache.clear 30 0 10 ("0x1", 0, 1000, false)
      (fun _ => [nullFill]) (fun _ => [])).2.2.2 rfl (by decide) |>.1,
   (claim8_ttl_cache TTLCache.clear 30 0 10 ("0x1", 0, 1000, false)
      (fun _ => [nullFill]) (fun _ => [])).2.2.2 rfl (by decide) |>.2.2⟩

/-- A raw fill whose `time` field is numeric but far outside
`datetime.fromtimestamp`'s supported year range. -/
def badTimeFill : RawFill := { time := JValue.str "999999999999999999" }

/-- C9 (the spec's never-raises intent, which the code violates): a fill
whose `time` converts to a float that is not NaN but lies outside the
supported timestamp range makes `datetime.fromtimestamp` raise; the per
fill loop is outside the per-address `try`, so the whole fills section
aborts instead of degrading the field. -/
theorem claim9_normalization_raises :
    mkFillRow "0x1" "A" badTimeFill =
      Except.error "fromtimestamp: timestamp out of range" ∧
    fillsSection [{ address := "0x1", label := "A" }]
      (fun _ => Except.ok (some [badTimeFill])) 200 =
      Except.error "fromtimestamp: timestamp out of range" ∧
    (safe_float (JValue.str "999999999999999999")).isNan = false :=
  ⟨rfl, rfl, rfl⟩

/-- A raw fill with a falsy `time` (the number 0) and a present, truthy,
but non-numeric `timestamp`. -/
def c10Fill : RawFill := { time := JValue.int 0, timestamp := JValue.str "abc" }

/-- C10 counterexample: with `time = 0` (falsy) and `timestamp = "abc"`
(present and truthy), the produced row still has an empty time — so an
empty time value does NOT occur only when both fields are absent or
falsy; it also occurs whenever the selected source fails the float
conversion. -/
theorem claim10_fallback_counterexample :
    mkFillRow "0x1" "A" c10Fill = Except.ok (nullRow "0x1" "A") ∧
    (nullRow "0x1" "A").time = "" ∧
    c10Fill.time.truthy = false ∧
    c10Fill.timestamp ≠ JValue.null ∧
    c10Fill.timestamp.truthy = true :=
  ⟨rfl, rfl, rfl, by decide, rfl⟩

/-- C10 amended: the timestamp source falls back to `timestamp` exactly
when `time` is falsy; a successfully produced row has an empty time
exactly when the selected source's millisecond value is NaN (which
happens when the source is absent/None or fails the float conversion —
not only when both fields are absent or falsy). -/
theorem claim10_fallback_amended (addr lbl : String) (fill : RawFill) (row : FillRow)
    (h : mkFillRow addr lbl fill = Except.ok row) :
    (fill.time.truthy = false → chosenTs fill = fill.timestamp) ∧
    (fill.time.truthy = true → chosenTs fill = fill.time) ∧
    (row.time = "" ↔ (tsMsOf fill).isNan = true) := by
  refine ⟨?_, ?_, ?_⟩
  · intro ht; simp [chosenTs, ht]
  · intro ht; simp [chosenTs, ht]
  · simp only [mkFillRow] at h
    split at h
    · cases h
    · rename_i dt hdt
      injection h with h2
      subst h2
      by_cases hn : (tsMsOf fill).isNan = true
      · have hse : (tsMsOf fill).selfEq = false := by
          rw [PyFloat.selfEq_eq_not_isNan, hn]; rfl
        rw [if_neg (by simp [hse])] at hdt
        injection hdt with h3
        subst h3
        simp [hn]
      · have hn' : (tsMsOf fill).isNan = false := Bool.eq_false_iff.mpr hn
        have hse : (tsMsOf fill).selfEq = true := by
          rw [PyFloat.selfEq_eq_not_isNan, hn']; rfl
        rw [if_pos (by simp [hse])] at hdt
        cases hft : pyFromtimestampUTC ((tsMsOf fill).div1000) with
        | none => rw [hft] at hdt; cases hdt
        | some m =>
          rw [hft] at hdt
          injection hdt with h3
          subst h3
          simp [hn', isoformat_ne_empty m]

/-- Witness for C10 (amended): at `c10Fill` the fallback to `timestamp`
fires and the row time is empty because the conversion yields NaN. -/
theorem claim10_fallback_amended_witness :
    chosenTs c10Fill = c10Fill.timestamp ∧
    ((nullRow "0x1" "A").time = "" ↔ (tsMsOf c10Fill).isNan = true) :=
  ⟨(claim10_fallback_amended "0x1" "A" c10Fill (nullRow "0x1" "A") (by rfl)).1 rfl,
   (claim10_fallback_amended "0x1" "A" c10Fill (nullRow "0x1" "A") (by rfl)).2.2⟩
